import Mathlib

/-!
Verification of the micro-batching request scheduler in `ml-api/ml_api.py`
(`EmbedBatcher` / `RerankBatcher`), shallowly embedded in Lean.

Conventions of the embedding:
* an `asyncio.Future` is a `FutureState` value: `pending` until resolved,
  then `result r` (after `set_result`) or `error e` (after `set_exception`);
* a Python exception raised by the executor is the `Except.error` branch of
  the executor function's return value;
* Python list slicing `l[s:e]` (with `0 ≤ s ≤ e`) is `pySlice l s e`;
* wall-clock times (`loop.time()`) are rationals.
-/

namespace MlApi

/-- The resolution state of one `asyncio.Future` (a Completion Handle):
either still pending, or holding a success result, or holding an exception. -/
inductive FutureState (R E : Type) : Type where
  | pending : FutureState R E
  | result : R → FutureState R E
  | error : E → FutureState R E
deriving DecidableEq

/-- Python's `Future.done()`: true exactly when the future has been resolved. -/
def FutureState.done {R E : Type} : FutureState R E → Bool
  | .pending => false
  | .result _ => true
  | .error _ => true

/-- The dispatcher's guarded resolution `if not future.done(): future.set_result(r)`
(ml_api.py lines 152-153 and 314-319). -/
def FutureState.setResultIfPending {R E : Type} (f : FutureState R E) (r : R) :
    FutureState R E :=
  if f.done then f else .result r

/-- The dispatcher's guarded resolution `if not future.done(): future.set_exception(e)`
(ml_api.py lines 157-159 and 323-325). -/
def FutureState.setErrorIfPending {R E : Type} (f : FutureState R E) (e : E) :
    FutureState R E :=
  if f.done then f else .error e

/-- Python slice `l[s:e]` for `0 ≤ s ≤ e`. -/
def pySlice {γ : Type} (l : List γ) (s e : Nat) : List γ :=
  (l.drop s).take (e - s)

/-- The running prefix sum of `EmbedBatcher._run_batch` (ml_api.py lines 130-135):
starting from `start_idx`, each work item with `c` sub-units contributes the
half-open range `(start_idx, start_idx + c)` and advances `start_idx` by `c`. -/
def request_indices (counts : List Nat) (start_idx : Nat) : List (Nat × Nat) :=
  match counts with
  | [] => []
  | c :: rest => (start_idx, start_idx + c) :: request_indices rest (start_idx + c)

/-- The response dict built by `EmbedBatcher._run_batch` for one work item
(ml_api.py lines 146-151). -/
structure EmbedResponse (D S : Type) where
  dense_vecs : List D
  sparse_vecs : List S
  latency_ms : Nat
  batch_size : Nat
deriving DecidableEq

/-- Method `EmbedBatcher._run_batch` (ml_api.py lines 123-159). `batch_data` is the
list of `(texts, future)` pairs; `exec` stands for
`loop.run_in_executor(None, run_embed_inference_sync, all_texts)`, returning
`(dense_all, sparse_all, latency)` on success or raising (the `Except.error`
branch, caught by the `try`/`except` and dispatched to every future). -/
def EmbedBatcher.run_batch {α D S E : Type}
    (batch_data : List (List α × FutureState (EmbedResponse D S) E))
    (exec : List α → Except E (List D × List S × Nat)) :
    List (List α × FutureState (EmbedResponse D S) E) :=
  match exec (batch_data.map Prod.fst).flatten with
  | .ok (dense_all, sparse_all, latency) =>
      (batch_data.zip (request_indices (batch_data.map fun p => p.1.length) 0)).map
        fun p =>
          (p.1.1, p.1.2.setResultIfPending
            ⟨pySlice dense_all p.2.1 p.2.2, pySlice sparse_all p.2.1 p.2.2,
              latency, (batch_data.map Prod.fst).flatten.length⟩)
  | .error e =>
      batch_data.map fun p => (p.1, p.2.setErrorIfPending e)

/-- The response dict built by `RerankBatcher._run_batch` for one work item
(ml_api.py lines 314-319): `results` is `indexed_scores`, the slice's scores
paired with their original in-slice indices, sorted by score descending. -/
structure RerankResponse where
  results : List (Nat × ℚ)
  latency_ms : Nat
  batch_size : Nat
deriving DecidableEq

/-- One boundary dict `{"start": .., "end": .., "doc_count": ..}` built by
`RerankBatcher._run_batch` (ml_api.py lines 285-289); the Python key `"end"`
is the field `endIdx`. -/
structure Boundary where
  start : Nat
  endIdx : Nat
  doc_count : Nat
deriving DecidableEq

/-- The running prefix sum building `request_boundaries` in
`RerankBatcher._run_batch` (ml_api.py lines 281-290). -/
def request_boundaries (doc_counts : List Nat) (start_idx : Nat) : List Boundary :=
  match doc_counts with
  | [] => []
  | c :: rest => ⟨start_idx, start_idx + c, c⟩ :: request_boundaries rest (start_idx + c)

/-- Python's stable descending sort
`indexed_scores.sort(key=lambda x: x[1], reverse=True)`: a stable sort that
places higher scores first (Python's list sort is stable, so any stable sort
for the same order yields the identical output). -/
def sortByScoreDesc (l : List (Nat × ℚ)) : List (Nat × ℚ) :=
  List.insertionSort (fun a b => b.2 ≤ a.2) l

/-- Python's `list(enumerate(doc_scores))`. -/
def pyEnumerate (l : List ℚ) : List (Nat × ℚ) :=
  (List.range l.length).zip l

/-- The flattening `all_pairs = [[query, doc] for doc in docs]` accumulated
over `batch_data` (ml_api.py lines 278-290). -/
def RerankBatcher.all_pairs {Q Doc E : Type}
    (batch_data : List (Q × List Doc × FutureState RerankResponse E)) :
    List (Q × Doc) :=
  (batch_data.map fun p => p.2.1.map fun d => (p.1, d)).flatten

/-- Method `RerankBatcher._run_batch` (ml_api.py lines 276-325). `batch_data` is the
list of `(query, documents, future)` triples; `compute_score` stands for
`reranker.compute_score(all_pairs)` run in the executor (an exception there is
the `Except.error` branch); `latency_ms` is the measured wall-clock latency. -/
def RerankBatcher.run_batch {Q Doc E : Type}
    (batch_data : List (Q × List Doc × FutureState RerankResponse E))
    (compute_score : List (Q × Doc) → Except E (List ℚ))
    (latency_ms : Nat) :
    List (Q × List Doc × FutureState RerankResponse E) :=
  match compute_score (all_pairs batch_data) with
  | .ok scores =>
      (batch_data.zip (request_boundaries (batch_data.map fun p => p.2.1.length) 0)).map
        fun q =>
          (q.1.1, q.1.2.1, q.1.2.2.setResultIfPending
            ⟨sortByScoreDesc (pyEnumerate (pySlice scores q.2.start q.2.endIdx)),
              latency_ms, (all_pairs batch_data).length⟩)
  | .error e =>
      batch_data.map fun q => (q.1, q.2.1, q.2.2.setErrorIfPending e)

/-- The batch-by-batch drain of `EmbedBatcher._process_loop` (ml_api.py lines
96-121): each cycle ends with `await self._run_batch(batch_data)` (line 121).
Because `_run_batch` wraps the executor invocation and the dispatch in
`try`/`except Exception` (lines 139-159), it returns normally on any executor
failure — which is why the `while True` loop proceeds to the next cycle and
every collected batch is processed in sequence. -/
def EmbedBatcher.process_loop {α D S E : Type}
    (batches : List (List (List α × FutureState (EmbedResponse D S) E)))
    (exec : List α → Except E (List D × List S × Nat)) :
    List (List (List α × FutureState (EmbedResponse D S) E)) :=
  batches.map fun b => EmbedBatcher.run_batch b exec

/-- The loop phase of `_process_loop` within one scheduling cycle
(spec §4.2 state machine, as implemented in ml_api.py lines 96-121 and
249-274). -/
inductive Phase (W : Type) : Type where
  | idle : Phase W
  | collecting : List W → Phase W
  | executing : List W → Phase W
deriving DecidableEq

/-- The state of one batcher instance: the intake queue (`self.queue`
contents, FIFO) and the loop phase. -/
structure SchedState (W : Type) : Type where
  queue : List W
  phase : Phase W
deriving DecidableEq

/-- Small-step transitions of one batcher instance (ml_api.py lines 89-121 /
242-274), interleaving producers with the single `_process_loop` task:
* `submit` — a producer's `await self.queue.put(..)` (line 93/246); possible
  in any phase, in particular during `executing`, because the executor runs
  via `run_in_executor` off the event loop;
* `firstItem` — `item = await self.queue.get()` (line 102/255), blocking in
  IDLE; its arrival opens a COLLECTING cycle with `batch_data = [item]`;
* `collectItem` — a successful `asyncio.wait_for(self.queue.get(), timeout)`
  (line 113/266), only allowed while `len(batch_data) < max_batch_size`;
* `beginExec` — collection ends (size reached or window elapsed) and the loop
  enters `await self._run_batch(batch_data)` (line 121/274);
* `finishExec` — `_run_batch` returns and the `while True` loop re-enters
  IDLE.
There is no transition that dequeues or starts a new batch while the phase is
`executing`: batches are strictly sequential, never pipelined. -/
inductive Step (maxB : Nat) {W : Type} : SchedState W → SchedState W → Prop where
  | submit (w : W) (q : List W) (ph : Phase W) :
      Step maxB ⟨q, ph⟩ ⟨q ++ [w], ph⟩
  | firstItem (w : W) (q : List W) :
      Step maxB ⟨w :: q, .idle⟩ ⟨q, .collecting [w]⟩
  | collectItem (w : W) (q : List W) (b : List W) (h : b.length < maxB) :
      Step maxB ⟨w :: q, .collecting b⟩ ⟨q, .collecting (b ++ [w])⟩
  | beginExec (q : List W) (b : List W) :
      Step maxB ⟨q, .collecting b⟩ ⟨q, .executing b⟩
  | finishExec (q : List W) (b : List W) :
      Step maxB ⟨q, .executing b⟩ ⟨q, .idle⟩

/-- The bounded collection loop of `_process_loop` (ml_api.py lines 108-118 /
261-271), with the timing abstracted into a list of events: `some w` means
`asyncio.wait_for(self.queue.get(), timeout)` returned work item `w` before
the window expired; `none` means the remaining time reached zero
(`timeout <= 0`, lines 110-111) or `wait_for` raised `asyncio.TimeoutError`
(lines 115-116), either of which ends collection. The loop also ends as soon
as `len(batch_data)` reaches `max_batch_size` (the `while` condition,
line 108/261). -/
def collect_loop {W : Type} (maxB : Nat) (events : List (Option W))
    (batch_data : List W) : List W :=
  match events with
  | [] => batch_data
  | ev :: rest =>
      if batch_data.length < maxB then
        match ev with
        | some w => collect_loop maxB rest (batch_data ++ [w])
        | none => batch_data
      else batch_data

/-- One full collection cycle: the cycle's first work item comes from the
blocking `item = await self.queue.get()` (line 102/255) and is always in the
batch; then the bounded loop runs. The result is the `batch_data` passed to
`_run_batch` (lines 120-121 / 273-274). -/
def collect_batch {W : Type} (maxB : Nat) (first : W)
    (events : List (Option W)) : List W :=
  collect_loop maxB events [first]

/-- The timed collection loop of `_process_loop` (ml_api.py lines 107-118 /
260-271), with wall-clock time explicit. `deadline` is fixed for the whole
cycle; `arrivals` lists the future queue arrivals `(time, item)` in order.
Each iteration, at current time `now`, with `len(batch_data)` still below
`max_batch_size` (line 108): computes `timeout = deadline - now` (line 109);
breaks if `timeout <= 0` (lines 110-111); otherwise
`asyncio.wait_for(self.queue.get(), timeout)` (line 113) returns the next
arrival exactly when it comes within `timeout` seconds — i.e. by `deadline` —
and raises `asyncio.TimeoutError`, breaking the loop, otherwise
(lines 115-116). -/
def collect_timed {W : Type} (maxB : Nat) (deadline : ℚ)
    (arrivals : List (ℚ × W)) (now : ℚ) (batch_data : List W) : List W :=
  match arrivals with
  | [] => batch_data
  | (t, w) :: rest =>
      if batch_data.length < maxB then
        if deadline - now ≤ 0 then batch_data
        else if t ≤ deadline then
          collect_timed maxB deadline rest (max now t) (batch_data ++ [w])
        else batch_data
      else batch_data

/-- One full timed cycle: the first work item of the cycle arrives (and is
dequeued) at `t_first`, and the aggregation deadline is computed once, at
that moment: `deadline = asyncio.get_running_loop().time() + TIMEOUT`
(line 107/260) — anchored to the first item only. -/
def collect_cycle {W : Type} (maxB : Nat) (window t_first : ℚ) (first : W)
    (arrivals : List (ℚ × W)) : List W :=
  collect_timed maxB (t_first + window) arrivals t_first [first]

/-- A bounded `asyncio.Queue(maxsize=..)` as used by both batchers
(ml_api.py lines 72 and 225): `items` are the enqueued entries in FIFO order;
`putters` are the entries of producers currently suspended inside
`await queue.put(..)` because the queue was full, in arrival order (asyncio
wakes putters FIFO as slots free). -/
structure BoundedQueue (W : Type) : Type where
  items : List W
  putters : List W
deriving DecidableEq

/-- Semantics of `await queue.put(w)` (ml_api.py line 93 / 246): if a slot is free (and no
earlier producer is still blocked), `w` is appended to the queue; otherwise
the caller suspends — `w` joins the blocked putters, is never dropped, and no
exception is raised. -/
def put {W : Type} (maxsize : Nat) (q : BoundedQueue W) (w : W) : BoundedQueue W :=
  if q.items.length < maxsize ∧ q.putters.isEmpty then ⟨q.items ++ [w], q.putters⟩
  else ⟨q.items, q.putters ++ [w]⟩

/-- Semantics of `queue.put_nowait(w)`: the non-blocking alternative API, which raises
`asyncio.QueueFull` when the queue is at capacity. The source always uses the
blocking `await queue.put(..)`, never this. -/
def put_nowait {W : Type} (maxsize : Nat) (q : BoundedQueue W) (w : W) :
    Except Unit (BoundedQueue W) :=
  if q.items.length < maxsize ∧ q.putters.isEmpty then .ok ⟨q.items ++ [w], q.putters⟩
  else .error ()

/-- Semantics of `await queue.get()` (consumer side of `_process_loop`): returns the FIFO
head; the freed slot admits the longest-waiting blocked putter's entry. -/
def get {W : Type} (q : BoundedQueue W) : Option (W × BoundedQueue W) :=
  match q.items, q.putters with
  | [], _ => none
  | w :: rest, [] => some (w, ⟨rest, []⟩)
  | w :: rest, p :: ps => some (w, ⟨rest ++ [p], ps⟩)

/-- Methods `EmbedBatcher.process` / `RerankBatcher.process` (ml_api.py lines 89-94 /
242-247): create a fresh pending future, `await self.queue.put((work, future))`
— the blocking put — and give the caller the future to await. Returns the
queue after the put together with the caller's handle entry. -/
def process {W R E : Type} (maxsize : Nat)
    (q : BoundedQueue (W × FutureState R E)) (work : W) :
    BoundedQueue (W × FutureState R E) × (W × FutureState R E) :=
  (put maxsize q (work, .pending), (work, .pending))

/-- Constant `EMBED_MAX_TEXTS_PER_REQUEST` (ml_api.py line 47). -/
def EMBED_MAX_TEXTS_PER_REQUEST : Nat := 128

/-- Constant `QUERY_PREFIX` (ml_api.py line 48). -/
def QUERY_PREFIX_STR : String :=
  "Represent this sentence for searching relevant passages: "

/-- A FastAPI `HTTPException`, by status code and detail message. -/
structure HTTPErrorModel : Type where
  status_code : Nat
  detail : String
deriving DecidableEq

/-- Handler `create_embeddings` (`@app.post("/embed")`, ml_api.py lines 435-467), up
to the `await embed_batcher.process(input_texts)` call: a single string is
wrapped into a one-element list; validation runs before any enqueue. The
model takes the embed intake queue as explicit state and returns the
validation outcome together with the queue after the call: on a 400 the
queue is unchanged (nothing was enqueued); otherwise the final texts (after
optional query-prefixing) are enqueued. -/
def create_embeddings (text : String ⊕ List String) (is_query : Bool)
    (queue : List (List String)) :
    Except HTTPErrorModel (List String) × List (List String) :=
  let input_texts : List String :=
    match text with
    | .inl s => [s]
    | .inr ts => ts
  if input_texts.isEmpty then
    (.error ⟨400, "Input text cannot be empty."⟩, queue)
  else if EMBED_MAX_TEXTS_PER_REQUEST < input_texts.length then
    (.error ⟨400, "Too many texts. Max: " ++ toString EMBED_MAX_TEXTS_PER_REQUEST
      ++ ", got: " ++ toString input_texts.length⟩, queue)
  else
    let final_texts :=
      if is_query then input_texts.map (fun t => QUERY_PREFIX_STR ++ t)
      else input_texts
    (.ok final_texts, queue ++ [final_texts])

/-- Handler `rerank` (`@app.post("/rerank")`, ml_api.py lines 470-487), up to the
`await rerank_batcher.process(request.query, request.documents)` call, with
the rerank intake queue as explicit state. -/
def rerank (query : String) (documents : List String)
    (queue : List (String × List String)) :
    Except HTTPErrorModel (String × List String) × List (String × List String) :=
  if documents.isEmpty then
    (.error ⟨400, "Documents list cannot be empty"⟩, queue)
  else if 100 < documents.length then
    (.error ⟨400, "Maximum 100 documents per request"⟩, queue)
  else
    (.ok (query, documents), queue ++ [(query, documents)])

/-- The point at which `stop()`'s cancellation (ml_api.py lines 80-87 /
233-240) reaches the suspended `_process_loop`: either the loop is blocked in
IDLE on `item = await self.queue.get()` (line 102/255), or it is in
COLLECTING, blocked in `asyncio.wait_for(self.queue.get(), timeout)`
(line 113/266) with this cycle's already-collected work items in
`batch_data`. -/
inductive LoopPoint (W R E : Type) : Type where
  | idleWait : LoopPoint W R E
  | collectingWait : List (W × FutureState R E) → LoopPoint W R E

/-- What `_process_loop` does to the still-pending futures when `stop()`'s
cancellation arrives (ml_api.py lines 104-105 and 117-118): in IDLE the
`except asyncio.CancelledError: break` ends the loop; in COLLECTING the
`except asyncio.CancelledError: return` ends the coroutine without running
`_run_batch` on the partial batch. In both cases the coroutine merely
terminates: the code resolves neither the collected items' futures nor the
queued items' futures — no `set_exception` of any shutdown error is ever
executed on this path. The function returns the final future states of
(the collected partial batch, the still-queued items) once `stop()` returns. -/
def stop_outcome {W R E : Type} (point : LoopPoint W R E)
    (queue : List (W × FutureState R E)) :
    List (W × FutureState R E) × List (W × FutureState R E) :=
  match point with
  | .idleWait => ([], queue)
  | .collectingWait batch_data => (batch_data, queue)

theorem request_indices_length (counts : List Nat) (s : Nat) :
    (request_indices counts s).length = counts.length := by
  induction counts generalizing s with
  | nil => rfl
  | cons c rest ih => simp [request_indices, ih]

theorem request_indices_get (counts : List Nat) (s : Nat) (i : Nat)
    (h : i < (request_indices counts s).length) :
    (request_indices counts s)[i] =
      (s + ((counts.take i).sum), s + ((counts.take (i + 1)).sum)) := by
  induction counts generalizing s i with
  | nil => exact absurd h (by simp [request_indices])
  | cons c rest ih =>
      cases i with
      | zero => simp [request_indices]
      | succ j =>
          have hj : j < (request_indices rest (s + c)).length := by
            simpa [request_indices] using h
          have := ih (s + c) j hj
          simp only [request_indices, List.getElem_cons_succ, List.take_succ_cons,
            List.sum_cons, this]
          rw [Prod.mk.injEq]
          omega

theorem prefix_sum_take_succ_mono (counts : List Nat) (j : Nat) :
    ((counts.take j).sum) ≤ ((counts.take (j + 1)).sum) := by
  rw [List.take_succ, List.sum_append]
  omega

theorem prefix_sum_mono (counts : List Nat) {i j : Nat} (h : i ≤ j) :
    ((counts.take i).sum) ≤ ((counts.take j).sum) := by
  induction j with
  | zero => simp [Nat.le_zero.mp h]
  | succ k ih =>
      rcases Nat.lt_or_ge i (k + 1) with hk | hk
      · exact le_trans (ih (Nat.lt_succ_iff.mp hk)) (prefix_sum_take_succ_mono counts k)
      · have : i = k + 1 := le_antisymm h hk
        subst this
        exact le_rfl

theorem prefix_sum_le_total (counts : List Nat) (i : Nat) :
    ((counts.take i).sum) ≤ counts.sum := by
  have := prefix_sum_mono counts (le_max_left i counts.length)
  calc ((counts.take i).sum) ≤ ((counts.take (max i counts.length)).sum) := this
    _ = counts.sum := by rw [List.take_of_length_le (le_max_right i counts.length)]

theorem prefix_sum_cover (counts : List Nat) (k : Nat) (hk : k < counts.sum) :
    ∃ i, ∃ _ : i < counts.length,
      ((counts.take i).sum) ≤ k ∧ k < ((counts.take (i + 1)).sum) := by
  induction counts generalizing k with
  | nil => simp at hk
  | cons c rest ih =>
      rcases Nat.lt_or_ge k c with hc | hc
      · exact ⟨0, by simp, by simp, by simpa using hc⟩
      · have hk' : k - c < rest.sum := by simp [List.sum_cons] at hk; omega
        obtain ⟨i, hi, h1, h2⟩ := ih (k - c) hk'
        exact ⟨i + 1, by simpa using hi, by simp [List.sum_cons]; omega,
          by simp [List.sum_cons]; omega⟩

/-- The slice of a flattened list at the `i`-th prefix-sum range is exactly the
`i`-th constituent list, in its original order. -/
theorem pySlice_flatten (l : List (List γ)) (i : Nat) (h : i < l.length) :
    pySlice l.flatten (((l.map List.length).take i).sum)
      (((l.map List.length).take (i + 1)).sum) = l[i] := by
  induction l generalizing i with
  | nil => simp at h
  | cons x rest ih =>
      cases i with
      | zero =>
          simp only [List.map_cons, List.take_succ_cons, List.take_zero,
            List.sum_cons, List.sum_nil, List.flatten_cons, pySlice,
            List.drop_zero, Nat.zero_add, Nat.sub_zero, Nat.add_zero]
          exact List.take_left x rest.flatten
      | succ j =>
          have hj : j < rest.length := by simpa using h
          have := ih j hj
          simp only [List.map_cons, List.take_succ_cons, List.sum_cons,
            List.flatten_cons, pySlice, List.getElem_cons_succ]
          have hsub : x.length + ((rest.map List.length).take (j + 1)).sum -
              (x.length + ((rest.map List.length).take j).sum) =
              ((rest.map List.length).take (j + 1)).sum -
                ((rest.map List.length).take j).sum := by omega
          rw [hsub, List.drop_append]
          exact this

theorem EmbedBatcher.run_batch_length {α D S E : Type}
    (batch_data : List (List α × FutureState (EmbedResponse D S) E))
    (exec : List α → Except E (List D × List S × Nat)) :
    (run_batch batch_data exec).length = batch_data.length := by
  unfold run_batch
  cases hx : exec (batch_data.map Prod.fst).flatten with
  | ok v =>
      obtain ⟨d, s, lat⟩ := v
      simp [List.length_zip, request_indices_length]
  | error e => simp

theorem EmbedBatcher.run_batch_get_ok {α D S E : Type}
    (batch_data : List (List α × FutureState (EmbedResponse D S) E))
    (exec : List α → Except E (List D × List S × Nat))
    (dense_all : List D) (sparse_all : List S) (latency : Nat)
    (hexec : exec (batch_data.map Prod.fst).flatten = .ok (dense_all, sparse_all, latency))
    (i : Nat) (h : i < batch_data.length)
    (hr : i < (run_batch batch_data exec).length) :
    (run_batch batch_data exec)[i] =
      ((batch_data[i].1, batch_data[i].2.setResultIfPending
        ⟨pySlice dense_all (((batch_data.map fun p => p.1.length).take i).sum)
            (((batch_data.map fun p => p.1.length).take (i + 1)).sum),
          pySlice sparse_all (((batch_data.map fun p => p.1.length).take i).sum)
            (((batch_data.map fun p => p.1.length).take (i + 1)).sum),
          latency, (batch_data.map Prod.fst).flatten.length⟩)) := by
  simp only [run_batch, hexec]
  simp only [List.getElem_map, List.getElem_zip]
  rw [request_indices_get (batch_data.map fun p => p.1.length) 0 i
    (by simp [request_indices_length, h])]
  simp

theorem EmbedBatcher.run_batch_get_error {α D S E : Type}
    (batch_data : List (List α × FutureState (EmbedResponse D S) E))
    (exec : List α → Except E (List D × List S × Nat))
    (e : E)
    (hexec : exec (batch_data.map Prod.fst).flatten = .error e)
    (i : Nat) (h : i < batch_data.length)
    (hr : i < (run_batch batch_data exec).length) :
    (run_batch batch_data exec)[i] =
      (batch_data[i].1, batch_data[i].2.setErrorIfPending e) := by
  simp only [run_batch, hexec]
  simp

theorem request_boundaries_length (counts : List Nat) (s : Nat) :
    (request_boundaries counts s).length = counts.length := by
  induction counts generalizing s with
  | nil => rfl
  | cons c rest ih => simp [request_boundaries, ih]

/-- The rerank boundaries carry exactly the same `(start, end)` ranges as the
embed batcher's running prefix sum. -/
theorem request_boundaries_ranges (counts : List Nat) (s : Nat) :
    (request_boundaries counts s).map (fun b => (b.start, b.endIdx)) =
      request_indices counts s := by
  induction counts generalizing s with
  | nil => rfl
  | cons c rest ih => simp [request_boundaries, request_indices, ih]

theorem request_boundaries_get (counts : List Nat) (s : Nat) (i : Nat)
    (h : i < counts.length)
    (hb : i < (request_boundaries counts s).length) :
    (request_boundaries counts s)[i] =
      ⟨s + ((counts.take i).sum), s + ((counts.take (i + 1)).sum), counts[i]⟩ := by
  induction counts generalizing s i with
  | nil => simp at h
  | cons c rest ih =>
      cases i with
      | zero => simp [request_boundaries]
      | succ j =>
          have hj : j < rest.length := by simpa using h
          have hjb : j < (request_boundaries rest (s + c)).length := by
            rw [request_boundaries_length]; exact hj
          have := ih (s + c) j hj hjb
          simp only [request_boundaries, List.getElem_cons_succ, List.take_succ_cons,
            List.sum_cons, this]
          rw [Boundary.mk.injEq]
          refine ⟨by omega, by omega, rfl⟩

theorem RerankBatcher.rerank_run_batch_length {Q Doc E : Type}
    (batch_data : List (Q × List Doc × FutureState RerankResponse E))
    (compute_score : List (Q × Doc) → Except E (List ℚ))
    (latency_ms : Nat) :
    (run_batch batch_data compute_score latency_ms).length = batch_data.length := by
  unfold run_batch
  cases hx : compute_score (all_pairs batch_data) with
  | ok v => simp [List.length_zip, request_boundaries_length]
  | error e => simp

theorem RerankBatcher.rerank_run_batch_get_ok {Q Doc E : Type}
    (batch_data : List (Q × List Doc × FutureState RerankResponse E))
    (compute_score : List (Q × Doc) → Except E (List ℚ))
    (latency_ms : Nat) (scores : List ℚ)
    (hexec : compute_score (all_pairs batch_data) = .ok scores)
    (i : Nat) (h : i < batch_data.length)
    (hr : i < (run_batch batch_data compute_score latency_ms).length) :
    (run_batch batch_data compute_score latency_ms)[i] =
      (batch_data[i].1, batch_data[i].2.1, batch_data[i].2.2.setResultIfPending
        ⟨sortByScoreDesc (pyEnumerate (pySlice scores
            (((batch_data.map fun p => p.2.1.length).take i).sum)
            (((batch_data.map fun p => p.2.1.length).take (i + 1)).sum))),
          latency_ms, (all_pairs batch_data).length⟩) := by
  simp only [run_batch, hexec]
  simp only [List.getElem_map, List.getElem_zip]
  rw [request_boundaries_get (batch_data.map fun p => p.2.1.length) 0 i
    (by simpa using h) (by simp [request_boundaries_length, h])]
  simp

theorem RerankBatcher.rerank_run_batch_get_error {Q Doc E : Type}
    (batch_data : List (Q × List Doc × FutureState RerankResponse E))
    (compute_score : List (Q × Doc) → Except E (List ℚ))
    (latency_ms : Nat) (e : E)
    (hexec : compute_score (all_pairs batch_data) = .error e)
    (i : Nat) (h : i < batch_data.length)
    (hr : i < (run_batch batch_data compute_score latency_ms).length) :
    (run_batch batch_data compute_score latency_ms)[i] =
      (batch_data[i].1, batch_data[i].2.1, batch_data[i].2.2.setErrorIfPending e) := by
  simp only [run_batch, hexec]
  simp

/-- The `(start, end)` range of work item `i` selects, out of the flattened
`all_pairs`, exactly item `i`'s own `(query, doc)` pairs in original document
order. -/
theorem RerankBatcher.pySlice_all_pairs {Q Doc E : Type}
    (batch_data : List (Q × List Doc × FutureState RerankResponse E))
    (i : Nat) (h : i < batch_data.length) :
    pySlice (all_pairs batch_data)
        (((batch_data.map fun p => p.2.1.length).take i).sum)
        (((batch_data.map fun p => p.2.1.length).take (i + 1)).sum) =
      batch_data[i].2.1.map (fun d => (batch_data[i].1, d)) := by
  have hm : i < (batch_data.map fun p => p.2.1.map fun d => (p.1, d)).length := by
    simpa using h
  have := pySlice_flatten (batch_data.map fun p => p.2.1.map fun d => (p.1, d)) i hm
  simp only [List.getElem_map] at this
  have hc : ((batch_data.map fun p => p.2.1.map fun d => (p.1, d)).map List.length) =
      (batch_data.map fun p => p.2.1.length) := by
    simp [Function.comp]
  rw [hc] at this
  exact this

theorem FutureState.setResultIfPending_pending {R E : Type} (r : R) :
    (FutureState.pending : FutureState R E).setResultIfPending r = .result r := rfl

theorem FutureState.setErrorIfPending_pending {R E : Type} (e : E) :
    (FutureState.pending : FutureState R E).setErrorIfPending e = .error e := rfl

/-- The `(start, end)` range of work item `i` selects, out of the flattened
`all_texts`, exactly item `i`'s own texts in original order. -/
theorem EmbedBatcher.pySlice_all_texts {α D S E : Type}
    (batch_data : List (List α × FutureState (EmbedResponse D S) E))
    (i : Nat) (h : i < batch_data.length) :
    pySlice (batch_data.map Prod.fst).flatten
        (((batch_data.map fun p => p.1.length).take i).sum)
        (((batch_data.map fun p => p.1.length).take (i + 1)).sum) =
      batch_data[i].1 := by
  have hm : i < (batch_data.map Prod.fst).length := by simpa using h
  have := pySlice_flatten (batch_data.map Prod.fst) i hm
  simp only [List.getElem_map] at this
  have hc : ((batch_data.map Prod.fst).map List.length) =
      (batch_data.map fun p => p.1.length) := by
    simp [Function.comp]
  rw [hc] at this
  exact this

/-- C1: For every batch flattened from a non-empty ordered list of work items
with sub-unit counts `c_1..c_n`, the offset ranges computed by the running
prefix sum (`request_indices` / `request_boundaries`) are the half-open
prefix-sum intervals `(0,c_1), (c_1,c_1+c_2), ...`, which are contiguous,
non-overlapping, and whose union is `[0, total_length)`; on executor success
each work item's future is resolved with exactly the slice
`ExecutorResult[start:end]` of its own range (a range that selects exactly its
own sub-units of the flattened input, in their original order); e.g. counts
`[3, 1, 4]` give ranges `(0,3), (3,4), (4,8)`. -/
theorem C1_offset_ranges_and_slicing
    {α D S E Q Doc E2 : Type}
    (bd : List (List α × FutureState (EmbedResponse D S) E))
    (exec : List α → Except E (List D × List S × Nat))
    (dense_all : List D) (sparse_all : List S) (latency : Nat)
    (_hne : bd ≠ [])
    (hexec : exec (bd.map Prod.fst).flatten = .ok (dense_all, sparse_all, latency))
    (bdr : List (Q × List Doc × FutureState RerankResponse E2))
    (compute_score : List (Q × Doc) → Except E2 (List ℚ))
    (scores : List ℚ) (lat2 : Nat)
    (hcs : compute_score (RerankBatcher.all_pairs bdr) = .ok scores) :
    -- (a) the ranges are the prefix-sum half-open intervals
    (∀ (counts : List Nat) (i : Nat) (h : i < (request_indices counts 0).length),
        (request_indices counts 0)[i] =
          (((counts.take i).sum), ((counts.take (i + 1)).sum))) ∧
    -- (b) contiguity: each range's end is the next range's start
    (∀ (counts : List Nat) (i : Nat) (h : i < (request_indices counts 0).length)
        (h2 : i + 1 < (request_indices counts 0).length),
        ((request_indices counts 0)[i]).2 = ((request_indices counts 0)[i + 1]).1) ∧
    -- (c) non-overlap: ranges of distinct items are disjoint
    (∀ (counts : List Nat) (i j : Nat) (hi : i < (request_indices counts 0).length)
        (hj : j < (request_indices counts 0).length), i < j →
        ((request_indices counts 0)[i]).2 ≤ ((request_indices counts 0)[j]).1) ∧
    -- (d) the union of the ranges is exactly [0, total_length)
    (∀ (counts : List Nat) (k : Nat),
        k < counts.sum ↔ ∃ i, ∃ h : i < (request_indices counts 0).length,
          ((request_indices counts 0)[i]).1 ≤ k ∧ k < ((request_indices counts 0)[i]).2) ∧
    -- (e) embed dispatch: each pending future is resolved with exactly its slice
    (∀ (i : Nat) (h : i < bd.length)
        (hr : i < (EmbedBatcher.run_batch bd exec).length),
        bd[i].2 = .pending →
        (EmbedBatcher.run_batch bd exec)[i] =
          (bd[i].1, .result
            ⟨pySlice dense_all (((bd.map fun p => p.1.length).take i).sum)
                (((bd.map fun p => p.1.length).take (i + 1)).sum),
              pySlice sparse_all (((bd.map fun p => p.1.length).take i).sum)
                (((bd.map fun p => p.1.length).take (i + 1)).sum),
              latency, (bd.map Prod.fst).flatten.length⟩)) ∧
    -- (f) the range is the item's own: it selects its own sub-units in order
    (∀ (i : Nat) (h : i < bd.length),
        pySlice (bd.map Prod.fst).flatten
            (((bd.map fun p => p.1.length).take i).sum)
            (((bd.map fun p => p.1.length).take (i + 1)).sum) = bd[i].1) ∧
    -- (g) the rerank batcher computes the same ranges and dispatches each
    -- pending future with the scores of exactly its own slice
    (∀ (counts : List Nat),
        (request_boundaries counts 0).map (fun b => (b.start, b.endIdx)) =
          request_indices counts 0) ∧
    (∀ (i : Nat) (h : i < bdr.length)
        (hr : i < (RerankBatcher.run_batch bdr compute_score lat2).length),
        bdr[i].2.2 = .pending →
        (RerankBatcher.run_batch bdr compute_score lat2)[i] =
          (bdr[i].1, bdr[i].2.1, .result
            ⟨sortByScoreDesc (pyEnumerate (pySlice scores
                (((bdr.map fun p => p.2.1.length).take i).sum)
                (((bdr.map fun p => p.2.1.length).take (i + 1)).sum))),
              lat2, (RerankBatcher.all_pairs bdr).length⟩)) ∧
    -- (h) the concrete example from the specification
    request_indices [3, 1, 4] 0 = [(0, 3), (3, 4), (4, 8)] := by
  refine ⟨?_, ?_, ?_, ?_, ?_, ?_, ?_, ?_, by decide⟩
  · intro counts i h
    simpa using request_indices_get counts 0 i h
  · intro counts i h h2
    rw [request_indices_get counts 0 i h, request_indices_get counts 0 (i + 1) h2]
  · intro counts i j hi hj hij
    rw [request_indices_get counts 0 i hi, request_indices_get counts 0 j hj]
    simpa using prefix_sum_mono counts hij
  · intro counts k
    constructor
    · intro hk
      obtain ⟨i, hi, h1, h2⟩ := prefix_sum_cover counts k hk
      refine ⟨i, by rwa [request_indices_length], ?_, ?_⟩ <;>
        rw [request_indices_get counts 0 i (by rwa [request_indices_length])] <;>
        simpa
    · rintro ⟨i, hi, h1, h2⟩
      rw [request_indices_get counts 0 i hi] at h2
      calc k < ((counts.take (i + 1)).sum) := by simpa using h2
        _ ≤ counts.sum := prefix_sum_le_total counts (i + 1)
  · intro i h hr hp
    rw [EmbedBatcher.run_batch_get_ok bd exec dense_all sparse_all latency hexec i h hr,
      hp, FutureState.setResultIfPending_pending]
  · intro i h
    exact EmbedBatcher.pySlice_all_texts bd i h
  · intro counts
    exact request_boundaries_ranges counts 0
  · intro i h hr hp
    rw [RerankBatcher.rerank_run_batch_get_ok bdr compute_score lat2 scores hcs i h hr,
      hp, FutureState.setResultIfPending_pending]

/-- C4: Every exception raised by the executor during a batch's EXECUTING
phase is caught inside the batch-execution step (`_run_batch`) and converted
into errors delivered through the batch's futures; it never propagates out of
`_run_batch`, so the scheduler loop continues: every later (and earlier) batch
of the loop is still processed exactly by `_run_batch`. -/
theorem C4_executor_exception_contained
    {α D S E : Type}
    (batches : List (List (List α × FutureState (EmbedResponse D S) E)))
    (exec : List α → Except E (List D × List S × Nat))
    (i : Nat) (hi : i < batches.length) (e : E)
    (hfail : exec ((batches[i].map Prod.fst).flatten) = .error e)
    (hpend : ∀ (k : Nat) (hk : k < batches[i].length), (batches[i])[k].2 = .pending) :
    -- the loop runs every batch, the failing one included, through _run_batch
    (EmbedBatcher.process_loop batches exec).length = batches.length ∧
    (∀ (j : Nat) (hj : j < batches.length)
        (hj2 : j < (EmbedBatcher.process_loop batches exec).length),
        (EmbedBatcher.process_loop batches exec)[j] =
          EmbedBatcher.run_batch batches[j] exec) ∧
    -- and the executor failure is converted into per-future errors
    (∀ (k : Nat) (hk : k < batches[i].length)
        (hk2 : k < (EmbedBatcher.run_batch batches[i] exec).length),
        ((EmbedBatcher.run_batch batches[i] exec)[k]).2 = .error e) := by
  refine ⟨by simp [EmbedBatcher.process_loop], ?_, ?_⟩
  · intro j hj hj2
    simp [EmbedBatcher.process_loop]
  · intro k hk hk2
    rw [EmbedBatcher.run_batch_get_error batches[i] exec e hfail k hk hk2,
      hpend k hk, FutureState.setErrorIfPending_pending]

/-- Witness for C4: a two-batch loop whose first batch's executor raises; the
second batch is still processed and succeeds. -/
theorem C4_executor_exception_contained_witness :
    (EmbedBatcher.process_loop
        [[([1, 2], (FutureState.pending : FutureState (EmbedResponse Nat Nat) Nat))],
          [([3], FutureState.pending)]]
        (fun l : List Nat => if l.length = 2 then Except.error 55 else Except.ok (l, l, 1)))
      = [[([1, 2], FutureState.error 55)],
          [([3], FutureState.result ⟨[3], [3], 1, 1⟩)]] ∧
    ((EmbedBatcher.run_batch
        [([1, 2], (FutureState.pending : FutureState (EmbedResponse Nat Nat) Nat))]
        (fun l : List Nat => if l.length = 2 then Except.error 55 else
          Except.ok (l, l, 1)))[0]?.map fun p => p.2) = some (FutureState.error 55) := by
  have h := C4_executor_exception_contained
    [[([1, 2], (FutureState.pending : FutureState (EmbedResponse Nat Nat) Nat))],
      [([3], FutureState.pending)]]
    (fun l : List Nat => if l.length = 2 then Except.error 55 else Except.ok (l, l, 1))
    0 (by decide) 55 rfl
    (by intro k hk; simp [Nat.lt_one_iff] at hk; subst hk; rfl)
  obtain ⟨hlen, hall, hfail⟩ := h
  refine ⟨by decide, ?_⟩
  have h0 := hfail 0 (by decide) (by decide)
  rw [List.getElem?_eq_getElem (by decide)]
  simp only [Option.map_some']
  exact congrArg some h0

/-- C5: At most one executor invocation is in flight: from a state whose
phase is `executing b` (batch N in its EXECUTING phase), the only possible
steps are (1) a producer submission, which appends the new work item to the
intake queue and leaves batch N and the phase unchanged — the item is queued,
not added to batch N, and no second executor invocation starts — and (2) the
completion of the in-flight batch, which returns the loop to IDLE with the
queue untouched. In particular no step dequeues a work item for a new batch
while one is executing. -/
theorem C5_sequential_execution {W : Type} (maxB : Nat)
    (s s' : SchedState W) (b : List W)
    (hstep : Step maxB s s') (hexec : s.phase = .executing b) :
    (s'.phase = .executing b ∧ ∃ w, s'.queue = s.queue ++ [w]) ∨
    (s'.phase = .idle ∧ s'.queue = s.queue) := by
  cases hstep with
  | submit w q ph =>
      left
      simp only at hexec
      simp [hexec]
  | firstItem w q => simp at hexec
  | collectItem w q b h => simp at hexec
  | beginExec q b => simp at hexec
  | finishExec q b => right; simp

/-- Witness for C5: a concrete submission arriving while a batch of one item
is executing is queued and does not join the executing batch. -/
theorem C5_sequential_execution_witness :
    ((⟨[7], Phase.executing [5]⟩ : SchedState Nat).phase = Phase.executing [5] ∧
      ∃ w, ([7, 9] : List Nat) = [7] ++ [w]) ∨
    ((⟨[7, 9], Phase.executing [5]⟩ : SchedState Nat).phase = Phase.idle ∧
      ([7, 9] : List Nat) = [7]) := by
  have h := C5_sequential_execution 4 (⟨[7], Phase.executing [5]⟩ : SchedState Nat)
    ⟨[7, 9], Phase.executing [5]⟩ [5]
    (Step.submit 9 [7] (Phase.executing [5])) rfl
  rcases h with ⟨h1, w, hw⟩ | ⟨h1, hw⟩
  · exact Or.inl ⟨rfl, w, hw⟩
  · exact Or.inr ⟨by simp at h1, hw⟩

/-- C2: For every batch whose executor invocation raises, every work item's
future in that batch is resolved with that same single error value, and no
future in the batch is resolved with a success result (no partial credit);
this holds for both the embed and the rerank batcher. -/
theorem C2_uniform_batch_failure
    {α D S E Q Doc E2 : Type}
    (bd : List (List α × FutureState (EmbedResponse D S) E))
    (exec : List α → Except E (List D × List S × Nat)) (e : E)
    (hexec : exec (bd.map Prod.fst).flatten = .error e)
    (hpend : ∀ (i : Nat) (h : i < bd.length), bd[i].2 = .pending)
    (bdr : List (Q × List Doc × FutureState RerankResponse E2))
    (compute_score : List (Q × Doc) → Except E2 (List ℚ)) (e2 : E2) (lat2 : Nat)
    (hcs : compute_score (RerankBatcher.all_pairs bdr) = .error e2)
    (hpend2 : ∀ (i : Nat) (h : i < bdr.length), bdr[i].2.2 = .pending) :
    (∀ (i : Nat) (h : i < bd.length)
        (hr : i < (EmbedBatcher.run_batch bd exec).length),
        ((EmbedBatcher.run_batch bd exec)[i]).2 = .error e ∧
        ∀ r, ((EmbedBatcher.run_batch bd exec)[i]).2 ≠ .result r) ∧
    (∀ (i : Nat) (h : i < bdr.length)
        (hr : i < (RerankBatcher.run_batch bdr compute_score lat2).length),
        ((RerankBatcher.run_batch bdr compute_score lat2)[i]).2.2 = .error e2 ∧
        ∀ r, ((RerankBatcher.run_batch bdr compute_score lat2)[i]).2.2 ≠ .result r) := by
  constructor
  · intro i h hr
    have := EmbedBatcher.run_batch_get_error bd exec e hexec i h hr
    rw [this, hpend i h, FutureState.setErrorIfPending_pending]
    exact ⟨rfl, fun r hcontra => FutureState.noConfusion hcontra⟩
  · intro i h hr
    have := RerankBatcher.rerank_run_batch_get_error bdr compute_score lat2 e2 hcs i h hr
    rw [this, hpend2 i h, FutureState.setErrorIfPending_pending]
    exact ⟨rfl, fun r hcontra => FutureState.noConfusion hcontra⟩

/-- Witness for C2: a concrete embed batch of two work items and a concrete
rerank batch of two work items, each with a raising executor: both futures of
each batch end in the same error and neither holds a success. -/
theorem C2_uniform_batch_failure_witness :
    ((EmbedBatcher.run_batch
        [([10, 11], (FutureState.pending : FutureState (EmbedResponse Nat Nat) Nat)),
          ([12], FutureState.pending)]
        (fun _ : List Nat => Except.error 99))[0]?.map fun p => p.2) =
      some (FutureState.error 99) ∧
    ((RerankBatcher.run_batch
        [((1 : Nat), ([100] : List Nat),
            (FutureState.pending : FutureState RerankResponse Nat)),
          (2, [200, 201], FutureState.pending)]
        (fun _ => Except.error 77) 5)[1]?.map fun p => p.2.2) =
      some (FutureState.error 77) := by
  have h := C2_uniform_batch_failure
    [([10, 11], (FutureState.pending : FutureState (EmbedResponse Nat Nat) Nat)),
      ([12], FutureState.pending)]
    (fun _ : List Nat => Except.error 99) 99 rfl
    (by intro i h; simp at h; interval_cases i <;> rfl)
    [((1 : Nat), ([100] : List Nat),
        (FutureState.pending : FutureState RerankResponse Nat)),
      (2, [200, 201], FutureState.pending)]
    (fun _ => Except.error 77) 77 5 rfl
    (by intro i h; simp at h; interval_cases i <;> rfl)
  obtain ⟨hE, hR⟩ := h
  constructor
  · have h0 := (hE 0 (by decide) (by decide)).1
    rw [List.getElem?_eq_getElem (by decide)]
    simp only [Option.map_some']
    exact congrArg some h0
  · have h1 := (hR 1 (by decide) (by decide)).1
    rw [List.getElem?_eq_getElem (by decide)]
    simp only [Option.map_some']
    exact congrArg some h1

/-- Witness for C1: concrete embed batch with sub-unit counts `[3, 1, 4]` and
concrete rerank batch with document counts `[2, 1]`, with all hypotheses
discharged on concrete inputs. -/
theorem C1_offset_ranges_and_slicing_witness :
    request_indices [3, 1, 4] 0 = [(0, 3), (3, 4), (4, 8)] ∧
    (EmbedBatcher.run_batch
        [([10, 11, 12], (FutureState.pending : FutureState (EmbedResponse Nat Nat) Unit)),
          ([20], FutureState.pending), ([30, 31, 32, 33], FutureState.pending)]
        (fun l : List Nat => Except.ok (l, l, 7)))[1]? =
      some ([20], FutureState.result ⟨[20], [20], 7, 8⟩) ∧
    (RerankBatcher.run_batch
        [((1 : Nat), ([100, 101] : List Nat),
            (FutureState.pending : FutureState RerankResponse Unit)),
          (2, [200], FutureState.pending)]
        (fun _ => Except.ok [(1 : ℚ), 3, 2]) 9)[0]? =
      some (1, [100, 101], FutureState.result ⟨[(1, 3), (0, 1)], 9, 3⟩) := by
  have h := C1_offset_ranges_and_slicing
    [([10, 11, 12], (FutureState.pending : FutureState (EmbedResponse Nat Nat) Unit)),
      ([20], FutureState.pending), ([30, 31, 32, 33], FutureState.pending)]
    (fun l : List Nat => Except.ok (l, l, 7))
    [10, 11, 12, 20, 30, 31, 32, 33] [10, 11, 12, 20, 30, 31, 32, 33] 7
    (by decide) rfl
    [((1 : Nat), ([100, 101] : List Nat),
        (FutureState.pending : FutureState RerankResponse Unit)),
      (2, [200], FutureState.pending)]
    (fun _ => Except.ok [(1 : ℚ), 3, 2]) [(1 : ℚ), 3, 2] 9
    rfl
  obtain ⟨hA, hB, hC, hD, hE, hF, hG, hH, hX⟩ := h
  refine ⟨hX, ?_, ?_⟩
  · have h1 := hE 1 (by decide) (by decide) rfl
    rw [List.getElem?_eq_getElem (by decide), h1]
    decide
  · have h0 := hH 0 (by decide) (by decide) rfl
    rw [List.getElem?_eq_getElem (by decide), h0]
    decide

theorem collect_loop_length_le {W : Type} (maxB : Nat) (events : List (Option W))
    (b : List W) (hb : b.length ≤ maxB) :
    (collect_loop maxB events b).length ≤ maxB := by
  induction events generalizing b with
  | nil => simpa [collect_loop]
  | cons ev rest ih =>
      simp only [collect_loop]
      split
      · cases ev with
        | some w =>
            exact ih (b ++ [w]) (by simp; omega)
        | none => exact hb
      · exact hb

theorem collect_loop_length_ge {W : Type} (maxB : Nat) (events : List (Option W))
    (b : List W) :
    b.length ≤ (collect_loop maxB events b).length := by
  induction events generalizing b with
  | nil => simp [collect_loop]
  | cons ev rest ih =>
      simp only [collect_loop]
      split
      · cases ev with
        | some w =>
            calc b.length ≤ (b ++ [w]).length := by simp
              _ ≤ _ := ih (b ++ [w])
        | none => exact le_rfl
      · exact le_rfl

/-- C6: Every batch passed to the executor contains at least 1 and at most
`max_batch_size` work items, the bound being measured in work-item count —
collection ends as soon as the work-item count reaches `max_batch_size` — and
no bound is enforced on the batch's total sub-unit count: a two-item batch
with 7 sub-units is collected in full under `max_batch_size = 2`. -/
theorem C6_batch_size_bounds {W : Type} (maxB : Nat) (first : W)
    (events : List (Option W)) (hmax : 1 ≤ maxB) :
    (1 ≤ (collect_batch maxB first events).length ∧
      (collect_batch maxB first events).length ≤ maxB) ∧
    (∀ (b : List W) (evs : List (Option W)),
      b.length = maxB → collect_loop maxB evs b = b) ∧
    (collect_batch 2 ([0, 1, 2] : List Nat) [some [3, 4, 5, 6]] =
        [[0, 1, 2], [3, 4, 5, 6]] ∧
      ((collect_batch 2 ([0, 1, 2] : List Nat) [some [3, 4, 5, 6]]).map
          List.length).sum = 7 ∧
      ¬ ((collect_batch 2 ([0, 1, 2] : List Nat) [some [3, 4, 5, 6]]).map
          List.length).sum ≤ 2) := by
  refine ⟨⟨?_, ?_⟩, ?_, by decide⟩
  · have := collect_loop_length_ge maxB events [first]
    simpa [collect_batch] using this
  · exact collect_loop_length_le maxB events [first] (by simpa)
  · intro b evs hb
    cases evs with
    | nil => simp [collect_loop]
    | cons ev rest => simp [collect_loop, hb]

/-- Witness for C6: a concrete cycle under the embed default
`max_batch_size = 32` with three arrivals collects a batch of size 4. -/
theorem C6_batch_size_bounds_witness :
    (1 ≤ (collect_batch 32 (0 : Nat) [some 1, some 2, some 3]).length ∧
      (collect_batch 32 (0 : Nat) [some 1, some 2, some 3]).length ≤ 32) ∧
    collect_loop 2 [some (9 : Nat)] [4, 5] = [4, 5] := by
  have h := C6_batch_size_bounds 32 (0 : Nat) [some 1, some 2, some 3] (by decide)
  have h2 := C6_batch_size_bounds 2 (4 : Nat) [] (by decide)
  exact ⟨h.1, h2.2.1 [4, 5] [some 9] rfl⟩

theorem collect_timed_take_eq {W : Type} (maxB : Nat) (deadline : ℚ)
    (arrivals : List (ℚ × W)) (now : ℚ) (b : List W) :
    ∃ k, collect_timed maxB deadline arrivals now b =
        b ++ ((arrivals.take k).map Prod.snd) ∧
      ∀ p ∈ arrivals.take k, p.1 ≤ deadline := by
  induction arrivals generalizing now b with
  | nil => exact ⟨0, by simp [collect_timed], by simp⟩
  | cons tw rest ih =>
      obtain ⟨t, w⟩ := tw
      by_cases h1 : b.length < maxB
      · by_cases h2 : deadline - now ≤ 0
        · exact ⟨0, by simp [collect_timed, h1, h2], by simp⟩
        · by_cases h3 : t ≤ deadline
          · obtain ⟨k, hk, hmem⟩ := ih (max now t) (b ++ [w])
            refine ⟨k + 1, ?_, ?_⟩
            · simp only [collect_timed, if_pos h1, if_neg h2, if_pos h3]
              simpa using hk
            · intro p hp
              simp only [List.take_succ_cons, List.mem_cons] at hp
              rcases hp with hp | hp
              · subst hp; exact h3
              · exact hmem p hp
          · exact ⟨0, by simp [collect_timed, h1, h2, h3], by simp⟩
      · exact ⟨0, by simp [collect_timed, h1], by simp⟩

/-- C7: The aggregation deadline of a cycle is `t_first + batch_window`,
computed once at the first item's arrival: every further work item collected
in the cycle arrived by that fixed deadline; collection ends when the
remaining time to that deadline reaches zero; and a later arrival does not
extend the deadline — concretely, with `window = 10` and the first item at
`t = 0`, an arrival at `t = 8` is collected but the next at `t = 12` is not,
even though `12 ≤ 8 + 10` (it would have been collected had the deadline been
re-anchored to the second arrival). -/
theorem C7_fixed_deadline {W : Type} (maxB : Nat) (window t_first : ℚ)
    (first : W) (arrivals : List (ℚ × W)) :
    (∃ k, collect_cycle maxB window t_first first arrivals =
        first :: ((arrivals.take k).map Prod.snd) ∧
      ∀ p ∈ arrivals.take k, p.1 ≤ t_first + window) ∧
    (∀ (t : ℚ) (w : W) (rest : List (ℚ × W)) (now : ℚ) (b : List W),
      t_first + window ≤ now →
      collect_timed maxB (t_first + window) ((t, w) :: rest) now b = b) ∧
    (collect_cycle 32 10 0 (0 : Nat) [(8, 1), (12, 2)] = [0, 1] ∧
      (12 : ℚ) ≤ 8 + 10) := by
  refine ⟨?_, ?_, by norm_num [collect_cycle, collect_timed]⟩
  · obtain ⟨k, hk, hmem⟩ :=
      collect_timed_take_eq maxB (t_first + window) arrivals t_first [first]
    exact ⟨k, by simpa [collect_cycle] using hk, hmem⟩
  · intro t w rest now b hle
    have h2 : t_first + window - now ≤ 0 := by linarith
    by_cases h1 : b.length < maxB
    · simp [collect_timed, h1, h2]
    · simp [collect_timed, h1]

/-- Witness for C7: the first item arrives at time 3 with a window of 5;
arrivals at times 6 and 7 are collected (both by the fixed deadline 8). -/
theorem C7_fixed_deadline_witness :
    (∃ k, collect_cycle 32 5 3 (0 : Nat) [(6, 1), (7, 2)] =
        0 :: (([((6 : ℚ), (1 : Nat)), (7, 2)].take k).map Prod.snd) ∧
      ∀ p ∈ [((6 : ℚ), (1 : Nat)), (7, 2)].take k, p.1 ≤ 3 + 5) ∧
    collect_timed 32 (3 + 5 : ℚ) [(9, (4 : Nat))] 8 [0, 1, 2] = [0, 1, 2] := by
  have h := C7_fixed_deadline 32 (5 : ℚ) 3 (0 : Nat) [(6, 1), (7, 2)]
  exact ⟨h.1, h.2.1 9 4 [] 8 [0, 1, 2] (by norm_num)⟩

/-- C8: Resolution of a Completion Handle is idempotent: a future already
holding a result or an error is left unchanged by any further resolution
attempt of the Result Dispatcher (whose attempts are the guarded
`if not future.done(): future.set_result/set_exception` calls, which also
raise no `InvalidStateError` — the guarded operation is total); hence each
future is resolved at most once. -/
theorem C8_idempotent_resolution {R E : Type} (f : FutureState R E)
    (hdone : f.done = true) :
    (∀ r : R, f.setResultIfPending r = f) ∧
    (∀ e : E, f.setErrorIfPending e = f) ∧
    (∀ (g : FutureState R E) (r r2 : R) (e e2 : E),
      ((g.setResultIfPending r).setResultIfPending r2 = g.setResultIfPending r) ∧
      ((g.setResultIfPending r).setErrorIfPending e = g.setResultIfPending r) ∧
      ((g.setErrorIfPending e).setErrorIfPending e2 = g.setErrorIfPending e) ∧
      ((g.setErrorIfPending e).setResultIfPending r = g.setErrorIfPending e)) := by
  refine ⟨?_, ?_, ?_⟩
  · intro r
    simp [FutureState.setResultIfPending, hdone]
  · intro e
    simp [FutureState.setErrorIfPending, hdone]
  · intro g r r2 e e2
    cases g <;>
      simp [FutureState.setResultIfPending, FutureState.setErrorIfPending,
        FutureState.done]

/-- Witness for C8: a future already resolved with result 1 is unchanged by a
second result and by an error. -/
theorem C8_idempotent_resolution_witness :
    (FutureState.result 1 : FutureState Nat Nat).done = true ∧
    (FutureState.result 1 : FutureState Nat Nat).setResultIfPending 2 =
      FutureState.result 1 ∧
    (FutureState.result 1 : FutureState Nat Nat).setErrorIfPending 3 =
      FutureState.result 1 := by
  have h := C8_idempotent_resolution (FutureState.result 1 : FutureState Nat Nat) rfl
  exact ⟨rfl, h.1 2, h.2.1 3⟩

/-- C9: `submit` on a full intake queue blocks the caller (backpressure)
until space frees and then enqueues the item; it never fails with a capacity
error (contrast `put_nowait`, which the code does not use) and never drops
the item, and in all cases it hands the caller the item's (pending)
completion handle. -/
theorem C9_submit_backpressure {W R E : Type} (maxsize : Nat)
    (q : BoundedQueue (W × FutureState R E)) (work : W) :
    -- the caller always gets the item's pending completion handle
    (process maxsize q work).2 = (work, FutureState.pending) ∧
    -- free slot: the entry is enqueued at the tail immediately
    (q.items.length < maxsize → q.putters = [] →
      (process maxsize q work).1 =
        ⟨q.items ++ [(work, FutureState.pending)], []⟩) ∧
    -- no free slot: the caller blocks; the entry is retained among the
    -- blocked putters and the queued items are untouched
    (¬ (q.items.length < maxsize ∧ q.putters = []) →
      (process maxsize q work).1 =
        ⟨q.items, q.putters ++ [(work, FutureState.pending)]⟩) ∧

    -- where the rejecting alternative would fail with a capacity error
    (q.items.length = maxsize →
      put_nowait maxsize q (work, FutureState.pending) = .error ()) ∧
    -- in every case the submitted entry is never dropped
    ((work, FutureState.pending) ∈ (process maxsize q work).1.items ∨
      (work, FutureState.pending) ∈ (process maxsize q work).1.putters) ∧
    -- when the consumer frees a slot, the longest-blocked entry is enqueued
    (∀ (x p : W × FutureState R E) (rest ps : List (W × FutureState R E)),
      get (⟨x :: rest, p :: ps⟩ : BoundedQueue (W × FutureState R E)) =
        some (x, ⟨rest ++ [p], ps⟩)) := by
  refine ⟨rfl, ?_, ?_, ?_, ?_, ?_⟩
  · intro h1 h2
    simp [process, put, h1, h2]
  · intro h
    have h2 : ¬ (q.items.length < maxsize ∧ q.putters.isEmpty = true) := by
      simpa [List.isEmpty_iff] using h
    simp only [process, put, if_neg h2]
  · intro h
    have h2 : ¬ (q.items.length < maxsize ∧ q.putters.isEmpty = true) := by
      rw [h]
      simp
    simp [put_nowait, if_neg h2]
  · by_cases h : q.items.length < maxsize ∧ q.putters.isEmpty = true
    · left
      simp [process, put, h]
    · right
      simp [process, put, if_neg h]
  · intro x p rest ps
    simp [get]

/-- Witness for C9: a queue of capacity 2 already holding two entries: the
submission is blocked but retained, `put_nowait` would have raised QueueFull,
and the caller still receives the pending handle. -/
theorem C9_submit_backpressure_witness :
    (process 2
        (⟨[((1 : Nat), (FutureState.pending : FutureState Nat Nat)),
            (2, FutureState.pending)], []⟩ :
          BoundedQueue (Nat × FutureState Nat Nat)) 3).1 =
      ⟨[(1, FutureState.pending), (2, FutureState.pending)],
        [(3, FutureState.pending)]⟩ ∧
    put_nowait 2
        (⟨[((1 : Nat), (FutureState.pending : FutureState Nat Nat)),
            (2, FutureState.pending)], []⟩ :
          BoundedQueue (Nat × FutureState Nat Nat)) (3, FutureState.pending) =
      .error () ∧
    (process 2
        (⟨[((1 : Nat), (FutureState.pending : FutureState Nat Nat)),
            (2, FutureState.pending)], []⟩ :
          BoundedQueue (Nat × FutureState Nat Nat)) 3).2 =
      (3, FutureState.pending) := by
  have h := C9_submit_backpressure 2
    (⟨[((1 : Nat), (FutureState.pending : FutureState Nat Nat)),
        (2, FutureState.pending)], []⟩ :
      BoundedQueue (Nat × FutureState Nat Nat)) 3
  obtain ⟨h1, h2, h3, h4, h5, h6⟩ := h
  exact ⟨h3 (by decide), h4 rfl, h1⟩

/-- C10: Every request failing validation is rejected with HTTP 400 before
any work is enqueued, leaving the scheduler's queue unchanged: `/embed`
rejects an empty text list and any list of more than 128 texts; `/rerank`
rejects an empty documents list and any list of more than 100 documents;
valid requests are enqueued. -/
theorem C10_http_validation :
    (∀ (iq : Bool) (q : List (List String)),
      create_embeddings (.inr []) iq q =
        (.error ⟨400, "Input text cannot be empty."⟩, q)) ∧
    (∀ (ts : List String) (iq : Bool) (q : List (List String)),
      128 < ts.length →
      (create_embeddings (.inr ts) iq q).2 = q ∧
      ∃ d, (create_embeddings (.inr ts) iq q).1 = .error ⟨400, d⟩) ∧
    (∀ (ts : List String) (iq : Bool) (q : List (List String)),
      ts ≠ [] → ts.length ≤ 128 →
      ∃ final, create_embeddings (.inr ts) iq q = (.ok final, q ++ [final])) ∧
    (∀ (qy : String) (q : List (String × List String)),
      rerank qy [] q = (.error ⟨400, "Documents list cannot be empty"⟩, q)) ∧
    (∀ (qy : String) (docs : List String) (q : List (String × List String)),
      100 < docs.length →
      rerank qy docs q =
        (.error ⟨400, "Maximum 100 documents per request"⟩, q)) ∧
    (∀ (qy : String) (docs : List String) (q : List (String × List String)),
      docs ≠ [] → docs.length ≤ 100 →
      rerank qy docs q = (.ok (qy, docs), q ++ [(qy, docs)])) := by
  refine ⟨?_, ?_, ?_, ?_, ?_, ?_⟩
  · intro iq q
    rfl
  · intro ts iq q hlen
    have hne : ts.isEmpty = false := by
      cases ts with
      | nil => simp at hlen
      | cons a l => rfl
    have hgt : EMBED_MAX_TEXTS_PER_REQUEST < ts.length := hlen
    refine ⟨?_, ?_⟩
    · simp [create_embeddings, hne, if_pos hgt]
    · exact ⟨"Too many texts. Max: " ++ toString EMBED_MAX_TEXTS_PER_REQUEST
        ++ ", got: " ++ toString ts.length,
        by simp [create_embeddings, hne, if_pos hgt]⟩
  · intro ts iq q hne hlen
    have hne2 : ts.isEmpty = false := by
      cases ts with
      | nil => exact absurd rfl hne
      | cons a l => rfl
    have hle : ¬ EMBED_MAX_TEXTS_PER_REQUEST < ts.length := by
      simp [EMBED_MAX_TEXTS_PER_REQUEST]
      omega
    exact ⟨if iq = true then ts.map (fun t => QUERY_PREFIX_STR ++ t) else ts,
      by simp only [create_embeddings, hne2, Bool.false_eq_true, if_false,
        if_neg hle]⟩
  · intro qy q
    rfl
  · intro qy docs q hlen
    have hne : docs.isEmpty = false := by
      cases docs with
      | nil => simp at hlen
      | cons a l => rfl
    simp [rerank, hne, if_pos hlen]
  · intro qy docs q hne hlen
    have hne2 : docs.isEmpty = false := by
      cases docs with
      | nil => exact absurd rfl hne
      | cons a l => rfl
    have hle : ¬ (100 : Nat) < docs.length := by omega
    simp [rerank, hne2, if_neg hle]

/-- Witness for C10: an oversize /embed request of 129 texts is rejected with
the queue untouched; /rerank with 101 documents is rejected; an empty /embed
list is rejected; a valid two-document /rerank request is enqueued. -/
theorem C10_http_validation_witness :
    (create_embeddings (.inr (List.replicate 129 "x")) false
        ([] : List (List String))).2 = [] ∧
    rerank "q" (List.replicate 101 "d") [] =
      (.error ⟨400, "Maximum 100 documents per request"⟩, []) ∧
    create_embeddings (.inr []) false [] =
      (.error ⟨400, "Input text cannot be empty."⟩, []) ∧
    rerank "q" ["d1", "d2"] [] = (.ok ("q", ["d1", "d2"]), [("q", ["d1", "d2"])]) := by
  have h := C10_http_validation
  obtain ⟨h1, h2, h3, h4, h5, h6⟩ := h
  refine ⟨(h2 (List.replicate 129 "x") false [] (by simp)).1,
    h5 "q" (List.replicate 101 "d") [] (by simp), h1 false [],
    h6 "q" ["d1", "d2"] [] (by simp) (by simp)⟩

/-- C3 (refuted — code bug): the claim requires `stop()` to resolve every
still-pending future (queued or already collected into the assembling batch)
with a Shutdown error. Evaluating the code's shutdown path at the failing
input — one work item already collected into the assembling batch and one
still queued, both futures pending — both futures are still `pending` (hence
not `done`) after shutdown: they are left unresolved forever, and the claimed
Shutdown-error resolution never happens. The same holds for a queued item
when cancellation lands in IDLE. -/
theorem C3_shutdown_leaves_pending :
    stop_outcome
        (LoopPoint.collectingWait
          [((10 : Nat), (FutureState.pending : FutureState Nat Nat))])
        [((20 : Nat), (FutureState.pending : FutureState Nat Nat))] =
      ([(10, FutureState.pending)], [(20, FutureState.pending)]) ∧
    (FutureState.pending : FutureState Nat Nat).done = false ∧
    stop_outcome (LoopPoint.idleWait)
        [((20 : Nat), (FutureState.pending : FutureState Nat Nat))] =
      ([], [(20, FutureState.pending)]) := by
  exact ⟨rfl, rfl, rfl⟩

end MlApi
